import Mathlib

/-!
Verification of `torchrec/distributed/sharding/vb_rw_sharding.py`:
variable-batch row-wise sharding — block-size computation, input
bucketization/redistribution, and the output pack / reduce-scatter /
narrow pipeline.  Python machine integers are modelled as `Nat`
(all the quantities involved — hash sizes, world size, ids, batch
sizes — are non-negative and no overflow arithmetic occurs in the
source), embedding entries as `Int`.
-/

namespace VbRwSharding

/-- A dense embedding row (one example's pooled vector). -/
abbrev Row := List Int

/-- Jagged sparse-id data, one flat id list per feature.
Modelled from the spec: the `KeyedJaggedTensor` carried inside
`SparseFeatures` (from `torchrec.sparse.jagged_tensor`, not under the
reviewed source); per-example lengths and per-id weights are omitted
because no claim here depends on them. -/
structure KJT where
  values : List (List Nat)
deriving DecidableEq, Repr

/-- `SparseFeatures` from `torchrec.distributed.embedding_types`:
two optional feature kinds. -/
structure SparseFeatures where
  idListFeatures : Option KJT
  idScoreListFeatures : Option KJT
deriving DecidableEq, Repr

/-- Block size for one feature, exactly as computed in
`VariableBatchRwSparseFeaturesDist.__init__`:
`(hash_size + self._world_size - 1) // self._world_size`. -/
def blockSize (hashSize worldSize : Nat) : Nat :=
  (hashSize + worldSize - 1) / worldSize

/-- Owning shard of id `v` under block size `b`: `v / b` (integer division). -/
def bucketShard (v b : Nat) : Nat := v / b

/-- Local id of `v` within its shard: `v mod b`. -/
def bucketLocal (v b : Nat) : Nat := v % b

/-- Flat offset of feature `f` inside the concatenation of all feature
id lists (used to express the unbucketize permutation). -/
def featureOffset (vals : List (List Nat)) (f : Nat) : Nat :=
  ((vals.take f).map List.length).sum

/-- Permutation from bucketized position back to original flat position:
for each destination bucket, in feature order, the original flat indices
of the ids routed to that bucket, preserving relative order. -/
def bucketPermutation (vals : List (List Nat)) (blockSizes : List Nat)
    (numBuckets : Nat) : List Nat :=
  (List.range numBuckets).flatMap (fun g =>
    ((vals.zip blockSizes).enum.flatMap (fun fp =>
      fp.2.1.enum.filterMap (fun iv =>
        if bucketShard iv.2 fp.2.2 = g then
          some (featureOffset vals fp.1 + iv.1)
        else none))))

/-- Modelled from the spec: `bucketize_kjt_before_all2all` (from
`torchrec.distributed.embedding_sharding`, not under the reviewed
source).  Per the spec's Bucketizer contract: every id `v` of a feature
with block size `b` is routed to shard `v / b` with local id `v mod b`;
ids are regrouped into `numBuckets` contiguous shard groups preserving
relative order, and the inverse permutation is returned only when
`outputPermute` is true.  `bucketizePos` selects carrying an auxiliary
per-id position value; positions/weights are not modelled since no
claim inspects them. -/
def bucketize_kjt_before_all2all (kjt : KJT) (numBuckets : Nat)
    (blockSizes : List Nat) (outputPermute : Bool) (bucketizePos : Bool) :
    KJT × Option (List Nat) :=
  let pairs := kjt.values.zip blockSizes
  let bucketized : List (List Nat) :=
    (List.range numBuckets).flatMap (fun g =>
      pairs.map (fun p =>
        (p.1.filter (fun v => bucketShard v p.2 = g)).map
          (fun v => bucketLocal v p.2)))
  let permute : Option (List Nat) :=
    if outputPermute then
      some (bucketPermutation kjt.values blockSizes numBuckets)
    else none
  (⟨bucketized⟩, permute)

/-- The state of a `VariableBatchRwSparseFeaturesDist` module: the
fields set by `__init__` plus the mutable `unbucketize_permute_tensor`
attribute. -/
structure DistState where
  worldSize : Nat
  numIdListFeatures : Nat
  numIdScoreListFeatures : Nat
  idListFeatureBlockSizes : List Nat
  idScoreListFeatureBlockSizes : List Nat
  hasFeatureProcessor : Bool
  unbucketizePermuteTensor : Option (List Nat)
deriving DecidableEq, Repr

/-- `VariableBatchRwSparseFeaturesDist.__init__`: stores the world size
and feature counts, computes both block-size vectors with
`(hash_size + world_size - 1) // world_size`, and initializes
`unbucketize_permute_tensor` to `None`. -/
def VariableBatchRwSparseFeaturesDist.init (worldSize : Nat)
    (numIdListFeatures numIdScoreListFeatures : Nat)
    (idListFeatureHashSizes idScoreListFeatureHashSizes : List Nat)
    (hasFeatureProcessor : Bool) : DistState :=
  { worldSize := worldSize
    numIdListFeatures := numIdListFeatures
    numIdScoreListFeatures := numIdScoreListFeatures
    idListFeatureBlockSizes :=
      idListFeatureHashSizes.map (fun h => blockSize h worldSize)
    idScoreListFeatureBlockSizes :=
      idScoreListFeatureHashSizes.map (fun h => blockSize h worldSize)
    hasFeatureProcessor := hasFeatureProcessor
    unbucketizePermuteTensor := none }

/-- Which feature kind a bucketization call was made for. -/
inductive FeatureKind
  | idList
  | idScoreList
deriving DecidableEq, Repr

/-- Record of one call to `bucketize_kjt_before_all2all`: the feature
kind and the two boolean flags passed at the call site. -/
structure BucketizeCall where
  kind : FeatureKind
  outputPermute : Bool
  bucketizePos : Bool
deriving DecidableEq, Repr

/-- The two `assert` statements in
`VariableBatchRwSparseFeaturesDist.forward` that can fail. -/
inductive AssertError
  | idListFeaturesMissing
  | idScoreListFeaturesMissing
deriving DecidableEq, Repr

instance : DecidableEq (Except AssertError SparseFeatures) := fun
  | .error a, .error b =>
    if h : a = b then isTrue (by rw [h])
    else isFalse (by intro he; cases he; exact h rfl)
  | .error _, .ok _ => isFalse (by intro h; cases h)
  | .ok _, .error _ => isFalse (by intro h; cases h)
  | .ok a, .ok b =>
    if h : a = b then isTrue (by rw [h])
    else isFalse (by intro he; cases he; exact h rfl)

/-- Full outcome of one call to
`VariableBatchRwSparseFeaturesDist.forward`: the bucketization calls
made (in order), the payloads handed to the all-to-all collective
(`self._dist(...)`), the module state after the call, and the result
(the bucketized `SparseFeatures` passed to the exchange, or the failed
assertion). -/
structure ForwardOutcome where
  calls : List BucketizeCall
  issuedAllToAll : List SparseFeatures
  newState : DistState
  result : Except AssertError SparseFeatures
deriving DecidableEq, Repr

/-- Second half of `forward` (lines 134-150): the id-score-list branch
followed by building `bucketized_sparse_features` and invoking
`self._dist`. -/
def forwardScorePhase (st : DistState) (calls : List BucketizeCall)
    (idListOut : Option KJT) (sf : SparseFeatures) : ForwardOutcome :=
  if st.numIdScoreListFeatures > 0 then
    match sf.idScoreListFeatures with
    | none => ⟨calls, [], st, .error .idScoreListFeaturesMissing⟩
    | some kjt =>
      let r := bucketize_kjt_before_all2all kjt st.worldSize
        st.idScoreListFeatureBlockSizes false false
      let payload : SparseFeatures := ⟨idListOut, some r.1⟩
      ⟨calls ++ [⟨.idScoreList, false, false⟩], [payload], st, .ok payload⟩
  else
    let payload : SparseFeatures := ⟨idListOut, none⟩
    ⟨calls, [payload], st, .ok payload⟩

/-- `VariableBatchRwSparseFeaturesDist.forward` (lines 103-150): if
`num_id_list_features > 0`, asserts the id-list features are present and
bucketizes them with `output_permute=False,
bucketize_pos=self._has_feature_processor`, storing the returned second
component in `self.unbucketize_permute_tensor`; otherwise passes `None`.
Then likewise for id-score-list features with
`output_permute=False, bucketize_pos=False` (second component
discarded), and finally hands the bucketized `SparseFeatures` to the
all-to-all. -/
def VariableBatchRwSparseFeaturesDist.forward (st : DistState)
    (sf : SparseFeatures) : ForwardOutcome :=
  if st.numIdListFeatures > 0 then
    match sf.idListFeatures with
    | none => ⟨[], [], st, .error .idListFeaturesMissing⟩
    | some kjt =>
      let r := bucketize_kjt_before_all2all kjt st.worldSize
        st.idListFeatureBlockSizes false st.hasFeatureProcessor
      let st1 := { st with unbucketizePermuteTensor := r.2 }
      let out := forwardScorePhase st1
        [⟨.idList, false, st.hasFeatureProcessor⟩] (some r.1) sf
      out
  else
    forwardScorePhase st [] none sf

/-- All-zero padding row of the given embedding width. -/
def zeroRow (width : Nat) : Row := List.replicate width 0

/-- Stand-in for the float negative-infinity sentinel of
`pad_minf=True` (embeddings are modelled over `Int`, which has no
infinity; only its distinctness from `0` matters). -/
def negInfSentinel : Int := -(2 ^ 62)

/-- Sentinel padding row used when `pad_minf=True`. -/
def negInfRow (width : Nat) : Row := List.replicate width negInfSentinel

/-- The padding row selected by the `pad_minf` flag of
`pack_segments`. -/
def padRowOf (padMinf : Bool) (width : Nat) : Row :=
  if padMinf then negInfRow width else zeroRow width

/-- Split a flat list of rows into consecutive segments of the given
lengths. -/
def splitByLengths : List Nat → List Row → List (List Row)
  | [], _ => []
  | l :: ls, xs => xs.take l :: splitByLengths ls (xs.drop l)

/-- Modelled from the spec: `torch.ops.fb.pack_segments` (an external
kernel, not under the reviewed source).  Splits `embs` into segments of
the given lengths and pads each segment to `maxLength` rows — with zero
rows when `pad_minf` is false, with the negative-infinity sentinel when
true — then (matching the subsequent
`.view(self._workers * max_length, -1)`) returns the flat concatenation
of the padded segments. -/
def packSegments (width : Nat) (embs : List Row) (lengths : List Nat)
    (maxLength : Nat) (padMinf : Bool) : List Row :=
  ((splitByLengths lengths embs).map (fun seg =>
    seg ++ List.replicate (maxLength - seg.length) (padRowOf padMinf width))).flatten

/-- Python's `max` over a list of non-negative batch sizes
(`max_length = max(batch_size_per_rank)`). -/
def maxList (l : List Nat) : Nat := l.foldl max 0

/-- Elementwise sum of two rows. -/
def addRow (a b : Row) : Row := List.zipWith (· + ·) a b

/-- Elementwise sum of two equal-shape row buffers. -/
def addBuf (a b : List Row) : List Row := List.zipWith addRow a b

/-- Elementwise sum of a collection of row buffers (one per worker). -/
def sumBufs : List (List Row) → List Row
  | [] => []
  | [b] => b
  | b :: c :: rest => addBuf b (sumBufs (c :: rest))

/-- Elementwise sum of a collection of rows. -/
def sumRowList : List Row → Row
  | [] => []
  | [r] => r
  | r :: s :: rest => addRow r (sumRowList (s :: rest))

/-- Modelled from the spec: `PooledEmbeddingsReduceScatter` (from
`torchrec.distributed.dist_data`, not under the reviewed source).
Given every worker's padded buffer, worker `rank` receives the
elementwise sum, over all workers, of slice
`[rank * sliceLen, (rank+1) * sliceLen)` of each worker's buffer. -/
def reduceScatterSlice (buffers : List (List Row)) (rank sliceLen : Nat) :
    List Row :=
  sumBufs (buffers.map (fun b => (b.drop (rank * sliceLen)).take sliceLen))

/-- `torch.narrow(t, 0, start, length)` along dimension 0. -/
def narrowDim0 (t : List Row) (start length : Nat) : List Row :=
  (t.drop start).take length

/-- `VariableBatchRwEmbeddingDistAwaitable._wait_impl`: wait for the
wrapped reduce-scatter result and narrow it to the first
`self._batch_size` rows. -/
def VariableBatchRwEmbeddingDistAwaitable.wait (received : List Row)
    (batchSize : Nat) : List Row :=
  narrowDim0 received 0 batchSize

/-- What one call to `VariableBatchRwPooledEmbeddingDist.forward`
computes locally: `max_length`, the `pad_minf` flag passed to
`pack_segments`, the packed buffer handed to the reduce-scatter (already
viewed as `[workers * max_length, width]`), and the batch size captured
in the returned awaitable. -/
structure OutputForwardTrace where
  maxLength : Nat
  padMinf : Bool
  packedPooledEmbs : List Row
  batchSize : Nat
deriving DecidableEq, Repr

/-- `VariableBatchRwPooledEmbeddingDist.forward` (lines 176-194):
computes `max_length = max(batch_size_per_rank)` and
`batch_size = batch_size_per_rank[self._rank]`, packs `local_embs` into
segments of lengths `batch_size_per_rank` padded to `max_length` with
`pad_minf=False`, and hands the `[workers * max_length, -1]` view to the
reduce-scatter, wrapping the result with the captured batch size. -/
def VariableBatchRwPooledEmbeddingDist.forward (rank width : Nat)
    (localEmbs : List Row) (batchSizePerRank : List Nat) :
    OutputForwardTrace :=
  let maxLength := maxList batchSizePerRank
  let batchSize := batchSizePerRank.getD rank 0
  let packed := packSegments width localEmbs batchSizePerRank maxLength false
  ⟨maxLength, false, packed, batchSize⟩

/-- The whole output path across all workers: every worker packs its
local pooled tensor (all workers share the globally known
`batch_size_per_rank`), the reduce-scatter delivers to worker `rank` the
elementwise sum of its slice over all workers, and awaiting the wrapped
result narrows to the true local batch size. -/
def vbOutputPipeline (rank width : Nat) (batchSizePerRank : List Nat)
    (localEmbsPerWorker : List (List Row)) : List Row :=
  let maxLength := maxList batchSizePerRank
  let buffers := localEmbsPerWorker.map (fun e =>
    (VariableBatchRwPooledEmbeddingDist.forward rank width e
      batchSizePerRank).packedPooledEmbs)
  let received := reduceScatterSlice buffers rank maxLength
  VariableBatchRwEmbeddingDistAwaitable.wait received
    (batchSizePerRank.getD rank 0)

/-- C1: for every feature with hash size `h > 0` and world size `W > 0`,
the constructor's block size `b = (h + W - 1) / W` satisfies `h ≤ W * b`,
and every legal id `v < h` maps to shard `v / b < W` with local id
`v mod b < b` (non-negativity is inherent to `Nat`). -/
theorem blockSize_maps_legal_ids_into_valid_shards
    (h W v : Nat) (hh : 0 < h) (hW : 0 < W) (hv : v < h) :
    h ≤ W * blockSize h W ∧
      bucketShard v (blockSize h W) < W ∧
      bucketLocal v (blockSize h W) < blockSize h W := by
  have hb : 0 < blockSize h W := Nat.div_pos (by omega) hW
  have hWb : h ≤ W * blockSize h W := by
    have hdm := Nat.div_add_mod (h + W - 1) W
    have hmod := Nat.mod_lt (h + W - 1) hW
    unfold blockSize
    omega
  refine ⟨hWb, ?_, Nat.mod_lt v hb⟩
  exact (Nat.div_lt_iff_lt_mul hb).mpr (by omega)

/-- C1 witness: hash size 10, world size 4 (block size 3), id 9 maps to
shard 3 with local id 0. -/
theorem blockSize_maps_legal_ids_into_valid_shards_witness :
    10 ≤ 4 * blockSize 10 4 ∧
      bucketShard 9 (blockSize 10 4) < 4 ∧
      bucketLocal 9 (blockSize 10 4) < blockSize 10 4 :=
  blockSize_maps_legal_ids_into_valid_shards 10 4 9 (by decide) (by decide)
    (by decide)

lemma le_mul_blockSize (h W : Nat) (hW : 0 < W) : h ≤ W * blockSize h W := by
  have hdm := Nat.div_add_mod (h + W - 1) W
  have hmod := Nat.mod_lt (h + W - 1) hW
  unfold blockSize
  omega

lemma blockSize_le (h W n : Nat) (hW : 0 < W) (hn : h ≤ W * n) :
    blockSize h W ≤ n := by
  unfold blockSize
  exact (Nat.div_le_iff_le_mul_add_pred hW).mpr (by omega)

lemma getD_map_blockSize (l : List Nat) (W i : Nat) (hW : 0 < W) :
    (l.map (fun h => blockSize h W)).getD i 0 = blockSize (l.getD i 0) W := by
  rcases Nat.lt_or_ge i l.length with hi | hi
  · rw [List.getD_eq_getElem?_getD, List.getD_eq_getElem?_getD,
      List.getElem?_map]
    simp [List.getElem?_eq_getElem hi]
  · rw [List.getD_eq_default _ _ (by simpa using hi),
      List.getD_eq_default _ _ hi]
    unfold blockSize
    rw [Nat.div_eq_of_lt (by omega)]

lemma forward_preserves_fields (st : DistState) (sf : SparseFeatures) :
    (VariableBatchRwSparseFeaturesDist.forward st sf).newState.worldSize
        = st.worldSize ∧
    (VariableBatchRwSparseFeaturesDist.forward st
        sf).newState.idListFeatureBlockSizes = st.idListFeatureBlockSizes ∧
    (VariableBatchRwSparseFeaturesDist.forward st
        sf).newState.idScoreListFeatureBlockSizes
        = st.idScoreListFeatureBlockSizes := by
  obtain ⟨idl, idsl⟩ := sf
  unfold VariableBatchRwSparseFeaturesDist.forward forwardScorePhase
  by_cases h1 : st.numIdListFeatures > 0 <;>
    by_cases h2 : st.numIdScoreListFeatures > 0 <;>
    cases idl <;> cases idsl <;> simp [h1, h2]

/-- C2: the constructor stores, for both feature kinds, one block size
per feature position (a vector the length of the hash-size list), equal
to `ceil(hash_size[i] / W)` — characterized as the least `n` with
`hash_size[i] ≤ W * n` — and `forward` never mutates either vector. -/
theorem init_blockSizes_ceil_and_forward_immutable
    (W numIdl numIdsl : Nat) (idlHash idslHash : List Nat)
    (hasFP : Bool) (i n : Nat) (sf : SparseFeatures) (hW : 0 < W) :
    (VariableBatchRwSparseFeaturesDist.init W numIdl numIdsl idlHash
        idslHash hasFP).idListFeatureBlockSizes.length = idlHash.length ∧
    (VariableBatchRwSparseFeaturesDist.init W numIdl numIdsl idlHash
        idslHash hasFP).idScoreListFeatureBlockSizes.length
        = idslHash.length ∧
    (idlHash.getD i 0 ≤
      W * (VariableBatchRwSparseFeaturesDist.init W numIdl numIdsl idlHash
        idslHash hasFP).idListFeatureBlockSizes.getD i 0) ∧
    (idlHash.getD i 0 ≤ W * n →
      (VariableBatchRwSparseFeaturesDist.init W numIdl numIdsl idlHash
        idslHash hasFP).idListFeatureBlockSizes.getD i 0 ≤ n) ∧
    (idslHash.getD i 0 ≤
      W * (VariableBatchRwSparseFeaturesDist.init W numIdl numIdsl idlHash
        idslHash hasFP).idScoreListFeatureBlockSizes.getD i 0) ∧
    (idslHash.getD i 0 ≤ W * n →
      (VariableBatchRwSparseFeaturesDist.init W numIdl numIdsl idlHash
        idslHash hasFP).idScoreListFeatureBlockSizes.getD i 0 ≤ n) ∧
    (VariableBatchRwSparseFeaturesDist.forward
      (VariableBatchRwSparseFeaturesDist.init W numIdl numIdsl idlHash
        idslHash hasFP) sf).newState.idListFeatureBlockSizes
      = (VariableBatchRwSparseFeaturesDist.init W numIdl numIdsl idlHash
        idslHash hasFP).idListFeatureBlockSizes ∧
    (VariableBatchRwSparseFeaturesDist.forward
      (VariableBatchRwSparseFeaturesDist.init W numIdl numIdsl idlHash
        idslHash hasFP) sf).newState.idScoreListFeatureBlockSizes
      = (VariableBatchRwSparseFeaturesDist.init W numIdl numIdsl idlHash
        idslHash hasFP).idScoreListFeatureBlockSizes := by
  have hmap1 := getD_map_blockSize idlHash W i hW
  have hmap2 := getD_map_blockSize idslHash W i hW
  have hpres := forward_preserves_fields
    (VariableBatchRwSparseFeaturesDist.init W numIdl numIdsl idlHash
      idslHash hasFP) sf
  have e1 : (VariableBatchRwSparseFeaturesDist.init W numIdl numIdsl idlHash
      idslHash hasFP).idListFeatureBlockSizes
      = idlHash.map (fun h => blockSize h W) := rfl
  have e2 : (VariableBatchRwSparseFeaturesDist.init W numIdl numIdsl idlHash
      idslHash hasFP).idScoreListFeatureBlockSizes
      = idslHash.map (fun h => blockSize h W) := rfl
  refine ⟨by rw [e1, List.length_map], by rw [e2, List.length_map],
    ?_, ?_, ?_, ?_, hpres.2.1, hpres.2.2⟩
  · rw [e1, hmap1]
    exact le_mul_blockSize (idlHash.getD i 0) W hW
  · intro hn
    rw [e1, hmap1]
    exact blockSize_le (idlHash.getD i 0) W n hW hn
  · rw [e2, hmap2]
    exact le_mul_blockSize (idslHash.getD i 0) W hW
  · intro hn
    rw [e2, hmap2]
    exact blockSize_le (idslHash.getD i 0) W n hW hn

/-- C2 witness: world size 2, id-list hash sizes `[10, 7]`, id-score
hash sizes `[3]`, evaluated at feature position 0 with candidate bound 5
and a concrete input. -/
theorem init_blockSizes_ceil_and_forward_immutable_witness :
    (VariableBatchRwSparseFeaturesDist.init 2 2 1 [10, 7] [3]
        false).idListFeatureBlockSizes.length = ([10, 7] : List Nat).length ∧
    (VariableBatchRwSparseFeaturesDist.init 2 2 1 [10, 7] [3]
        false).idScoreListFeatureBlockSizes.length
        = ([3] : List Nat).length ∧
    (([10, 7] : List Nat).getD 0 0 ≤
      2 * (VariableBatchRwSparseFeaturesDist.init 2 2 1 [10, 7] [3]
        false).idListFeatureBlockSizes.getD 0 0) ∧
    (([10, 7] : List Nat).getD 0 0 ≤ 2 * 5 →
      (VariableBatchRwSparseFeaturesDist.init 2 2 1 [10, 7] [3]
        false).idListFeatureBlockSizes.getD 0 0 ≤ 5) ∧
    (([3] : List Nat).getD 0 0 ≤
      2 * (VariableBatchRwSparseFeaturesDist.init 2 2 1 [10, 7] [3]
        false).idScoreListFeatureBlockSizes.getD 0 0) ∧
    (([3] : List Nat).getD 0 0 ≤ 2 * 5 →
      (VariableBatchRwSparseFeaturesDist.init 2 2 1 [10, 7] [3]
        false).idScoreListFeatureBlockSizes.getD 0 0 ≤ 5) ∧
    (VariableBatchRwSparseFeaturesDist.forward
      (VariableBatchRwSparseFeaturesDist.init 2 2 1 [10, 7] [3] false)
      ⟨some ⟨[[2, 7], [0]]⟩, some ⟨[[1]]⟩⟩).newState.idListFeatureBlockSizes
      = (VariableBatchRwSparseFeaturesDist.init 2 2 1 [10, 7] [3]
        false).idListFeatureBlockSizes ∧
    (VariableBatchRwSparseFeaturesDist.forward
      (VariableBatchRwSparseFeaturesDist.init 2 2 1 [10, 7] [3] false)
      ⟨some ⟨[[2, 7], [0]]⟩,
        some ⟨[[1]]⟩⟩).newState.idScoreListFeatureBlockSizes
      = (VariableBatchRwSparseFeaturesDist.init 2 2 1 [10, 7] [3]
        false).idScoreListFeatureBlockSizes :=
  init_blockSizes_ceil_and_forward_immutable 2 2 1 [10, 7] [3] false 0 5
    ⟨some ⟨[[2, 7], [0]]⟩, some ⟨[[1]]⟩⟩ (by decide)

/-- C6 counterexample: with zero id-score-list features configured
(`num_id_list_features = 0` as well), supplying id-score-list data does
NOT make `forward` fail — it returns successfully, refuting the claim
that inconsistent presence of that kind raises. -/
theorem forward_score_data_with_zero_config_does_not_fail :
    (VariableBatchRwSparseFeaturesDist.forward
      (VariableBatchRwSparseFeaturesDist.init 2 0 0 [] [] false)
      ⟨none, some ⟨[[1]]⟩⟩).result = .ok ⟨none, none⟩ := rfl

/-- C6 (amended): `forward` fails exactly when a configured-positive
feature kind's features are absent — `num_id_list_features > 0` with
`id_list_features` being `None`, or `num_id_score_list_features > 0`
with `id_score_list_features` being `None`.  Supplying data for a
zero-configured kind does not raise. -/
theorem forward_fails_iff_configured_kind_missing (st : DistState)
    (sf : SparseFeatures) :
    (VariableBatchRwSparseFeaturesDist.forward st sf).result.isOk = false ↔
      (0 < st.numIdListFeatures ∧ sf.idListFeatures = none) ∨
      (0 < st.numIdScoreListFeatures ∧ sf.idScoreListFeatures = none) := by
  obtain ⟨idl, idsl⟩ := sf
  unfold VariableBatchRwSparseFeaturesDist.forward forwardScorePhase
  by_cases h1 : st.numIdListFeatures > 0 <;>
    by_cases h2 : st.numIdScoreListFeatures > 0 <;>
    cases idl <;> cases idsl <;>
    simp [h1, h2, Except.isOk, Except.toBool, Nat.pos_iff_ne_zero, Nat.eq_zero_of_not_pos]

/-- C7: whenever `forward` fails its input validation, it raises before
the all-to-all is invoked: no payload is ever handed to `self._dist` on
the error path. -/
theorem forward_error_issues_no_collective (st : DistState)
    (sf : SparseFeatures)
    (herr : (VariableBatchRwSparseFeaturesDist.forward st
      sf).result.isOk = false) :
    (VariableBatchRwSparseFeaturesDist.forward st sf).issuedAllToAll
      = [] := by
  obtain ⟨idl, idsl⟩ := sf
  unfold VariableBatchRwSparseFeaturesDist.forward forwardScorePhase at *
  by_cases h1 : st.numIdListFeatures > 0 <;>
    by_cases h2 : st.numIdScoreListFeatures > 0 <;>
    cases idl <;> cases idsl <;>
    simp_all [h1, h2, Except.isOk, Except.toBool]

/-- C7 witness: one configured id-list feature but `None` supplied —
forward fails and no all-to-all payload is issued. -/
theorem forward_error_issues_no_collective_witness :
    (VariableBatchRwSparseFeaturesDist.forward
      (VariableBatchRwSparseFeaturesDist.init 2 1 0 [10] [] false)
      ⟨none, none⟩).result.isOk = false ∧
    (VariableBatchRwSparseFeaturesDist.forward
      (VariableBatchRwSparseFeaturesDist.init 2 1 0 [10] [] false)
      ⟨none, none⟩).issuedAllToAll = [] :=
  ⟨by decide, forward_error_issues_no_collective
    (VariableBatchRwSparseFeaturesDist.init 2 1 0 [10] [] false)
    ⟨none, none⟩ (by decide)⟩

/-- C8: every id-score-list bucketization call made by `forward` passes
`bucketize_pos=False` and `output_permute=False`, and every id-list
bucketization call passes `bucketize_pos = self._has_feature_processor`. -/
theorem forward_bucketize_flags (st : DistState) (sf : SparseFeatures)
    (c : BucketizeCall)
    (hc : c ∈ (VariableBatchRwSparseFeaturesDist.forward st sf).calls) :
    (c.kind = .idScoreList →
      c.bucketizePos = false ∧ c.outputPermute = false) ∧
    (c.kind = .idList → c.bucketizePos = st.hasFeatureProcessor) := by
  obtain ⟨idl, idsl⟩ := sf
  unfold VariableBatchRwSparseFeaturesDist.forward forwardScorePhase at hc
  by_cases h1 : st.numIdListFeatures > 0 <;>
    by_cases h2 : st.numIdScoreListFeatures > 0 <;>
    cases idl <;> cases idsl <;>
    simp_all [h1, h2] <;>
    rcases hc with rfl | rfl <;> simp

/-- C8 witness: one feature of each kind with a feature processor; both
recorded calls satisfy the flag contract (checked on the id-score-list
call). -/
theorem forward_bucketize_flags_witness :
    (⟨.idScoreList, false, false⟩ : BucketizeCall) ∈
      (VariableBatchRwSparseFeaturesDist.forward
        (VariableBatchRwSparseFeaturesDist.init 2 1 1 [10] [6] true)
        ⟨some ⟨[[2, 7]]⟩, some ⟨[[1]]⟩⟩).calls ∧
    (((⟨.idScoreList, false, false⟩ : BucketizeCall).kind = .idScoreList →
      (⟨.idScoreList, false, false⟩ : BucketizeCall).bucketizePos = false ∧
      (⟨.idScoreList, false, false⟩ : BucketizeCall).outputPermute
        = false) ∧
    ((⟨.idScoreList, false, false⟩ : BucketizeCall).kind = .idList →
      (⟨.idScoreList, false, false⟩ : BucketizeCall).bucketizePos
        = (VariableBatchRwSparseFeaturesDist.init 2 1 1 [10] [6]
            true).hasFeatureProcessor)) :=
  ⟨by decide, forward_bucketize_flags
    (VariableBatchRwSparseFeaturesDist.init 2 1 1 [10] [6] true)
    ⟨some ⟨[[2, 7]]⟩, some ⟨[[1]]⟩⟩ ⟨.idScoreList, false, false⟩
    (by decide)⟩

/-- C9: `forward` never requests the unbucketize permutation — every
bucketization call passes `output_permute=False` — and the stored
`unbucketize_permute_tensor` attribute is exactly the second component
returned by the (non-requesting) id-list bucketization call. -/
theorem forward_unbucketize_permute_from_nonrequesting_call
    (st : DistState) (sf : SparseFeatures) (c : BucketizeCall) (kjt : KJT)
    (hc : c ∈ (VariableBatchRwSparseFeaturesDist.forward st sf).calls) :
    c.outputPermute = false ∧
    (0 < st.numIdListFeatures → sf.idListFeatures = some kjt →
      (VariableBatchRwSparseFeaturesDist.forward st
          sf).newState.unbucketizePermuteTensor
        = (bucketize_kjt_before_all2all kjt st.worldSize
            st.idListFeatureBlockSizes false st.hasFeatureProcessor).2) := by
  obtain ⟨idl, idsl⟩ := sf
  constructor
  · unfold VariableBatchRwSparseFeaturesDist.forward forwardScorePhase at hc
    by_cases h1 : st.numIdListFeatures > 0 <;>
      by_cases h2 : st.numIdScoreListFeatures > 0 <;>
      cases idl <;> cases idsl <;>
      simp_all [h1, h2] <;>
      first
        | rfl
        | (rcases hc with rfl | rfl <;> rfl)
  · intro hn hkjt
    cases idl <;> cases hkjt
    unfold VariableBatchRwSparseFeaturesDist.forward forwardScorePhase
    by_cases h2 : st.numIdScoreListFeatures > 0 <;>
      cases idsl <;> simp [hn, h2]

/-- C9 witness: one id-list feature; the recorded call has
`output_permute=False` and the stored attribute equals the second
component of that call (which is `None`). -/
theorem forward_unbucketize_permute_from_nonrequesting_call_witness :
    (⟨.idList, false, false⟩ : BucketizeCall) ∈
      (VariableBatchRwSparseFeaturesDist.forward
        (VariableBatchRwSparseFeaturesDist.init 2 1 0 [10] [] false)
        ⟨some ⟨[[2, 7]]⟩, none⟩).calls ∧
    ((⟨.idList, false, false⟩ : BucketizeCall).outputPermute = false ∧
    (0 < (VariableBatchRwSparseFeaturesDist.init 2 1 0 [10] []
        false).numIdListFeatures →
      (⟨some ⟨[[2, 7]]⟩, none⟩ : SparseFeatures).idListFeatures
        = some ⟨[[2, 7]]⟩ →
      (VariableBatchRwSparseFeaturesDist.forward
        (VariableBatchRwSparseFeaturesDist.init 2 1 0 [10] [] false)
        ⟨some ⟨[[2, 7]]⟩, none⟩).newState.unbucketizePermuteTensor
        = (bucketize_kjt_before_all2all ⟨[[2, 7]]⟩
            (VariableBatchRwSparseFeaturesDist.init 2 1 0 [10] []
              false).worldSize
            (VariableBatchRwSparseFeaturesDist.init 2 1 0 [10] []
              false).idListFeatureBlockSizes false
            (VariableBatchRwSparseFeaturesDist.init 2 1 0 [10] []
              false).hasFeatureProcessor).2)) :=
  ⟨by decide, forward_unbucketize_permute_from_nonrequesting_call
    (VariableBatchRwSparseFeaturesDist.init 2 1 0 [10] [] false)
    ⟨some ⟨[[2, 7]]⟩, none⟩ ⟨.idList, false, false⟩ ⟨[[2, 7]]⟩
    (by decide)⟩

/-- C10: when a feature kind's configured count is zero (and the other
kind, if configured, is present), `forward` succeeds, hands exactly one
bucketized payload to the all-to-all, and that payload carries `None`
for every zero-configured kind — supplied features of such a kind are
silently ignored. -/
theorem forward_zero_configured_kind_silently_ignored (st : DistState)
    (sf : SparseFeatures)
    (h1 : 0 < st.numIdListFeatures → sf.idListFeatures ≠ none)
    (h2 : 0 < st.numIdScoreListFeatures → sf.idScoreListFeatures ≠ none) :
    ∃ p, (VariableBatchRwSparseFeaturesDist.forward st sf).result = .ok p ∧
      (VariableBatchRwSparseFeaturesDist.forward st sf).issuedAllToAll
        = [p] ∧
      (st.numIdListFeatures = 0 → p.idListFeatures = none) ∧
      (st.numIdScoreListFeatures = 0 → p.idScoreListFeatures = none) := by
  obtain ⟨idl, idsl⟩ := sf
  unfold VariableBatchRwSparseFeaturesDist.forward forwardScorePhase
  by_cases hp1 : st.numIdListFeatures > 0 <;>
    by_cases hp2 : st.numIdScoreListFeatures > 0 <;>
    cases idl <;> cases idsl <;>
    simp_all [hp1, hp2] <;> omega

/-- C10 witness: zero id-score-list features configured but score data
supplied; forward succeeds and the issued payload has `None` for the
id-score-list kind. -/
theorem forward_zero_configured_kind_silently_ignored_witness :
    ((0 < (VariableBatchRwSparseFeaturesDist.init 2 1 0 [10] []
        false).numIdListFeatures →
      (⟨some ⟨[[2, 7]]⟩, some ⟨[[1]]⟩⟩ : SparseFeatures).idListFeatures
        ≠ none) ∧
    (0 < (VariableBatchRwSparseFeaturesDist.init 2 1 0 [10] []
        false).numIdScoreListFeatures →
      (⟨some ⟨[[2, 7]]⟩, some ⟨[[1]]⟩⟩ :
        SparseFeatures).idScoreListFeatures ≠ none)) ∧
    ∃ p, (VariableBatchRwSparseFeaturesDist.forward
        (VariableBatchRwSparseFeaturesDist.init 2 1 0 [10] [] false)
        ⟨some ⟨[[2, 7]]⟩, some ⟨[[1]]⟩⟩).result = .ok p ∧
      (VariableBatchRwSparseFeaturesDist.forward
        (VariableBatchRwSparseFeaturesDist.init 2 1 0 [10] [] false)
        ⟨some ⟨[[2, 7]]⟩, some ⟨[[1]]⟩⟩).issuedAllToAll = [p] ∧
      ((VariableBatchRwSparseFeaturesDist.init 2 1 0 [10] []
          false).numIdListFeatures = 0 → p.idListFeatures = none) ∧
      ((VariableBatchRwSparseFeaturesDist.init 2 1 0 [10] []
          false).numIdScoreListFeatures = 0 →
        p.idScoreListFeatures = none) :=
  ⟨⟨by decide, by decide⟩, forward_zero_configured_kind_silently_ignored
    (VariableBatchRwSparseFeaturesDist.init 2 1 0 [10] [] false)
    ⟨some ⟨[[2, 7]]⟩, some ⟨[[1]]⟩⟩ (by decide) (by decide)⟩

/-- One segment padded to `m` rows with zero rows (what `pack_segments`
does to each segment when `pad_minf=False`). -/
def padSeg (m width : Nat) (s : List Row) : List Row :=
  s ++ List.replicate (m - s.length) (zeroRow width)

lemma splitByLengths_flatten (segs : List (List Row)) :
    splitByLengths (segs.map List.length) segs.flatten = segs := by
  induction segs with
  | nil => rfl
  | cons s rest ih =>
    simp only [List.map_cons, List.flatten_cons, splitByLengths,
      List.take_left, List.drop_left, ih]

lemma packSegments_eq_padded_flatten (width m : Nat)
    (segs : List (List Row)) :
    packSegments width segs.flatten (segs.map List.length) m false
      = (segs.map (padSeg m width)).flatten := by
  unfold packSegments padSeg padRowOf
  rw [splitByLengths_flatten]
  rfl

lemma foldl_max_facts (l : List Nat) (a : Nat) :
    a ≤ l.foldl max a ∧ ∀ x ∈ l, x ≤ l.foldl max a := by
  induction l generalizing a with
  | nil => exact ⟨Nat.le_refl a, by simp⟩
  | cons b t ih =>
    refine ⟨Nat.le_trans (Nat.le_max_left a b) (ih (max a b)).1, ?_⟩
    intro x hx
    rcases List.mem_cons.mp hx with rfl | hx
    · exact Nat.le_trans (Nat.le_max_right a x) (ih (max a x)).1
    · exact (ih (max a b)).2 x hx

lemma le_maxList (l : List Nat) (x : Nat) (hx : x ∈ l) : x ≤ maxList l :=
  (foldl_max_facts l 0).2 x hx

lemma getD_map_of_lt {α β : Type} (f : α → β) (l : List α) (i : Nat)
    (d₁ : α) (d₂ : β) (hi : i < l.length) :
    (l.map f).getD i d₂ = f (l.getD i d₁) := by
  rw [List.getD_eq_getElem?_getD, List.getD_eq_getElem?_getD,
    List.getElem?_map, List.getElem?_eq_getElem hi]
  rfl

lemma getD_self_mem (l : List Nat) (i : Nat) (hi : i < l.length) :
    l.getD i 0 ∈ l := by
  rw [List.getD_eq_getElem?_getD, List.getElem?_eq_getElem hi]
  exact List.getElem_mem hi

lemma padSeg_length (m width : Nat) (s : List Row) (hs : s.length ≤ m) :
    (padSeg m width s).length = m := by
  unfold padSeg
  rw [List.length_append, List.length_replicate]
  omega

lemma padSeg_getD_of_lt (m width i : Nat) (s : List Row)
    (hi : i < s.length) :
    (padSeg m width s).getD i [] = s.getD i [] := by
  unfold padSeg
  rw [List.getD_eq_getElem?_getD, List.getD_eq_getElem?_getD,
    List.getElem?_append]
  simp [hi]

lemma padSeg_getD_pad (m width i : Nat) (s : List Row)
    (hlow : s.length ≤ i) (hi : i < m) :
    (padSeg m width s).getD i [] = zeroRow width := by
  unfold padSeg
  rw [List.getD_eq_getElem?_getD, List.getElem?_append_right hlow,
    List.getElem?_replicate]
  have : i - s.length < m - s.length := by omega
  simp [this]

lemma slice_flatten_uniform (blocks : List (List Row)) (m r : Nat)
    (hm : ∀ b ∈ blocks, b.length = m) (hr : r < blocks.length) :
    ((blocks.flatten).drop (r * m)).take m = blocks.getD r [] := by
  induction blocks generalizing r with
  | nil => cases hr
  | cons b rest ih =>
    have hb : b.length = m := hm b (by simp)
    cases r with
    | zero =>
      simp only [Nat.zero_mul, List.drop_zero, List.flatten_cons]
      rw [← hb, List.take_left]
      rfl
    | succ r' =>
      have hmul : (r' + 1) * m = b.length + r' * m := by rw [hb]; ring
      rw [List.flatten_cons, hmul, ← List.drop_drop, List.drop_left]
      exact ih r' (fun x hx => hm x (by simp [hx])) (by simpa using hr)

lemma flatten_length_uniform (blocks : List (List Row)) (m : Nat)
    (hm : ∀ b ∈ blocks, b.length = m) :
    blocks.flatten.length = blocks.length * m := by
  induction blocks with
  | nil => simp
  | cons b rest ih =>
    rw [List.flatten_cons, List.length_append, hm b (by simp),
      ih (fun x hx => hm x (by simp [hx])), List.length_cons]
    ring

lemma sumBufs_length (bufs : List (List Row)) (m : Nat) (hne : bufs ≠ [])
    (hm : ∀ b ∈ bufs, b.length = m) : (sumBufs bufs).length = m := by
  induction bufs with
  | nil => simp at hne
  | cons b rest ih =>
    cases rest with
    | nil => simpa [sumBufs] using hm b (by simp)
    | cons c r2 =>
      show (addBuf b (sumBufs (c :: r2))).length = m
      unfold addBuf
      rw [List.length_zipWith, hm b (by simp),
        ih (by simp) (fun x hx => hm x (by simp [hx]))]
      omega

lemma zipWith_getElem?_of_lt {α : Type} (f : α → α → α) (a b : List α)
    (i : Nat) (d : α) (ha : i < a.length) (hb : i < b.length) :
    (List.zipWith f a b)[i]? = some (f (a.getD i d) (b.getD i d)) := by
  rw [List.getElem?_zipWith']
  rw [List.getElem?_eq_getElem ha, List.getElem?_eq_getElem hb]
  simp [List.getD_eq_getElem?_getD, List.getElem?_eq_getElem ha,
    List.getElem?_eq_getElem hb]

lemma sumBufs_getElem? (bufs : List (List Row)) (m i : Nat)
    (hne : bufs ≠ []) (hm : ∀ b ∈ bufs, b.length = m) (hi : i < m) :
    (sumBufs bufs)[i]?
      = some (sumRowList (bufs.map (fun b => b.getD i []))) := by
  induction bufs with
  | nil => simp at hne
  | cons b rest ih =>
    have hb : b.length = m := hm b (by simp)
    cases rest with
    | nil =>
      show b[i]? = some (sumRowList [b.getD i []])
      rw [List.getElem?_eq_getElem (by omega)]
      simp [sumRowList, List.getD_eq_getElem?_getD,
        List.getElem?_eq_getElem (show i < b.length by omega)]
    | cons c r2 =>
      show (addBuf b (sumBufs (c :: r2)))[i]? = _
      unfold addBuf
      have hrest : (sumBufs (c :: r2)).length = m :=
        sumBufs_length (c :: r2) m (by simp)
          (fun x hx => hm x (by simp [hx]))
      rw [zipWith_getElem?_of_lt addRow b (sumBufs (c :: r2)) i []
        (by omega) (by omega)]
      have hihs := ih (by simp) (fun x hx => hm x (by simp [hx]))
      have hval : (sumBufs (c :: r2)).getD i []
          = sumRowList ((c :: r2).map (fun b => b.getD i [])) := by
        rw [List.getD_eq_getElem?_getD, hihs]
        rfl
      rw [hval]
      show some (addRow (b.getD i [])
          (sumRowList ((c :: r2).map (fun b => b.getD i [])))) = _
      rw [List.map_cons]
      rfl

lemma getElem?_eq_some_getD {α : Type} (l : List α) (i : Nat) (d : α)
    (hi : i < l.length) : l[i]? = some (l.getD i d) := by
  rw [List.getD_eq_getElem?_getD, List.getElem?_eq_getElem hi]
  rfl

lemma contrib_seg_length (c : List (List Row)) (bspr : List Nat)
    (rank : Nat) (hc : c.map List.length = bspr)
    (hrank : rank < bspr.length) :
    (c.getD rank []).length = bspr.getD rank 0 := by
  have hlen : c.length = bspr.length := by rw [← hc, List.length_map]
  have h := getD_map_of_lt List.length c rank [] 0 (by omega)
  rw [hc] at h
  exact h.symm

lemma pipeline_received (rank width : Nat) (bspr : List Nat)
    (contribs : List (List (List Row)))
    (hshape : ∀ c ∈ contribs, c.map List.length = bspr)
    (hrank : rank < bspr.length) :
    reduceScatterSlice ((contribs.map List.flatten).map (fun e =>
        (VariableBatchRwPooledEmbeddingDist.forward rank width e
          bspr).packedPooledEmbs)) rank (maxList bspr)
      = sumBufs (contribs.map (fun c =>
          padSeg (maxList bspr) width (c.getD rank []))) := by
  unfold reduceScatterSlice
  rw [List.map_map, List.map_map]
  congr 1
  apply List.map_congr_left
  intro c hc
  have hcl : c.map List.length = bspr := hshape c hc
  have hclen : c.length = bspr.length := by rw [← hcl, List.length_map]
  have hpack : (VariableBatchRwPooledEmbeddingDist.forward rank width
      c.flatten bspr).packedPooledEmbs
      = (c.map (padSeg (maxList bspr) width)).flatten := by
    have h := packSegments_eq_padded_flatten width (maxList bspr) c
    rw [hcl] at h
    exact h
  have huni : ∀ b ∈ c.map (padSeg (maxList bspr) width),
      b.length = maxList bspr := by
    intro b hb
    rcases List.mem_map.mp hb with ⟨s, hs, rfl⟩
    refine padSeg_length _ _ _ ?_
    exact le_maxList bspr s.length (by rw [← hcl]; exact List.mem_map_of_mem _ hs)
  show ((VariableBatchRwPooledEmbeddingDist.forward rank width c.flatten
      bspr).packedPooledEmbs.drop (rank * maxList bspr)).take (maxList bspr)
      = padSeg (maxList bspr) width (c.getD rank [])
  rw [hpack, slice_flatten_uniform _ _ _ huni
    (by rw [List.length_map]; omega)]
  exact getD_map_of_lt (padSeg (maxList bspr) width) c rank [] []
    (by omega)

/-- C3: for every worker `rank` and local row `i < batch_size_per_rank[rank]`,
the narrowed output row `i` of the output distributor equals the
elementwise sum, over all shards, of that shard's contribution row `i`
for this rank; zero-padded rows never enter the sum. -/
theorem vbOutputPipeline_row_is_sum_of_shard_contributions
    (rank width i : Nat) (bspr : List Nat)
    (contribs : List (List (List Row)))
    (hne : contribs ≠ [])
    (hshape : ∀ c ∈ contribs, c.map List.length = bspr)
    (hrank : rank < bspr.length)
    (hi : i < bspr.getD rank 0) :
    (vbOutputPipeline rank width bspr (contribs.map List.flatten))[i]?
      = some (sumRowList (contribs.map (fun c =>
          (c.getD rank []).getD i []))) := by
  have hbs : bspr.getD rank 0 ≤ maxList bspr :=
    le_maxList bspr _ (getD_self_mem bspr rank hrank)
  unfold vbOutputPipeline VariableBatchRwEmbeddingDistAwaitable.wait
    narrowDim0
  dsimp only
  rw [List.drop_zero, pipeline_received rank width bspr contribs hshape
    hrank, List.getElem?_take]
  simp only [hi, if_true]
  rw [sumBufs_getElem? _ (maxList bspr) i
    (by simpa using hne)
    (by
      intro b hb
      rcases List.mem_map.mp hb with ⟨c, hc, rfl⟩
      refine padSeg_length _ _ _ ?_
      rw [contrib_seg_length c bspr rank (hshape c hc) hrank]
      exact hbs)
    (by omega)]
  rw [List.map_map]
  congr 1
  congr 1
  apply List.map_congr_left
  intro c hc
  show (padSeg (maxList bspr) width (c.getD rank [])).getD i []
      = (c.getD rank []).getD i []
  refine padSeg_getD_of_lt _ _ _ _ ?_
  rw [contrib_seg_length c bspr rank (hshape c hc) hrank]
  omega

/-- C3 witness: two workers with batch sizes `[2, 3]`, worker 1's row 1
equals the elementwise sum of both shards' contributions to that
example. -/
theorem vbOutputPipeline_row_is_sum_of_shard_contributions_witness :
    (([[[[1, 2], [3, 4]], [[5, 6], [7, 8], [9, 10]]],
       [[[10, 20], [30, 40]], [[50, 60], [70, 80], [90, 100]]]] :
        List (List (List Row))) ≠ []) ∧
    (∀ c ∈ ([[[[1, 2], [3, 4]], [[5, 6], [7, 8], [9, 10]]],
       [[[10, 20], [30, 40]], [[50, 60], [70, 80], [90, 100]]]] :
        List (List (List Row))), c.map List.length = [2, 3]) ∧
    1 < ([2, 3] : List Nat).length ∧
    1 < ([2, 3] : List Nat).getD 1 0 ∧
    (vbOutputPipeline 1 2 [2, 3]
        (([[[[1, 2], [3, 4]], [[5, 6], [7, 8], [9, 10]]],
          [[[10, 20], [30, 40]], [[50, 60], [70, 80], [90, 100]]]] :
          List (List (List Row))).map List.flatten))[1]?
      = some (sumRowList
          (([[[[1, 2], [3, 4]], [[5, 6], [7, 8], [9, 10]]],
            [[[10, 20], [30, 40]], [[50, 60], [70, 80], [90, 100]]]] :
            List (List (List Row))).map (fun c =>
              (c.getD 1 []).getD 1 []))) :=
  ⟨by decide, by decide, by decide, by decide,
    vbOutputPipeline_row_is_sum_of_shard_contributions 1 2 1 [2, 3]
      [[[[1, 2], [3, 4]], [[5, 6], [7, 8], [9, 10]]],
       [[[10, 20], [30, 40]], [[50, 60], [70, 80], [90, 100]]]]
      (by decide) (by decide) (by decide) (by decide)⟩

/-- C4: the output distributor computes
`max_length = max(batch_size_per_rank)`, packs the local pooled tensor
into a rectangular buffer of `world_size * max_length` rows, passes
`pad_minf=False`, and every row of segment `q` beyond that segment's
true batch size is an all-zero row (never the negative-infinity
sentinel). -/
theorem vbOutputForward_packs_rectangular_zero_padded
    (rank width q j : Nat) (bspr : List Nat) (segs : List (List Row))
    (hshape : segs.map List.length = bspr)
    (hq : q < bspr.length) (hlow : bspr.getD q 0 ≤ j)
    (hj : j < maxList bspr) :
    (VariableBatchRwPooledEmbeddingDist.forward rank width segs.flatten
        bspr).maxLength = maxList bspr ∧
    (VariableBatchRwPooledEmbeddingDist.forward rank width segs.flatten
        bspr).padMinf = false ∧
    (VariableBatchRwPooledEmbeddingDist.forward rank width segs.flatten
        bspr).packedPooledEmbs.length = bspr.length * maxList bspr ∧
    (VariableBatchRwPooledEmbeddingDist.forward rank width segs.flatten
        bspr).packedPooledEmbs.getD (q * maxList bspr + j) []
      = zeroRow width := by
  have hpack : (VariableBatchRwPooledEmbeddingDist.forward rank width
      segs.flatten bspr).packedPooledEmbs
      = (segs.map (padSeg (maxList bspr) width)).flatten := by
    have h := packSegments_eq_padded_flatten width (maxList bspr) segs
    rw [hshape] at h
    exact h
  have hslen : segs.length = bspr.length := by
    rw [← hshape, List.length_map]
  have huni : ∀ b ∈ segs.map (padSeg (maxList bspr) width),
      b.length = maxList bspr := by
    intro b hb
    rcases List.mem_map.mp hb with ⟨s, hs, rfl⟩
    refine padSeg_length _ _ _ ?_
    exact le_maxList bspr s.length
      (by rw [← hshape]; exact List.mem_map_of_mem _ hs)
  have hflen : (segs.map (padSeg (maxList bspr) width)).flatten.length
      = bspr.length * maxList bspr := by
    rw [flatten_length_uniform _ (maxList bspr) huni, List.length_map,
      hslen]
  refine ⟨rfl, rfl, by rw [hpack, hflen], ?_⟩
  have hqs : (segs.getD q []).length = bspr.getD q 0 :=
    contrib_seg_length segs bspr q hshape hq
  have hidx : q * maxList bspr + j < bspr.length * maxList bspr := by
    have h1 : q + 1 ≤ bspr.length := hq
    calc q * maxList bspr + j < q * maxList bspr + maxList bspr := by omega
    _ = (q + 1) * maxList bspr := by ring
    _ ≤ bspr.length * maxList bspr := Nat.mul_le_mul_right _ h1
  rw [hpack, List.getD_eq_getElem?_getD]
  have hdrop : ((segs.map (padSeg (maxList bspr)
      width)).flatten)[q * maxList bspr + j]?
      = (((segs.map (padSeg (maxList bspr) width)).flatten.drop
          (q * maxList bspr)).take (maxList bspr))[j]? := by
    rw [List.getElem?_take]
    simp only [hj, if_true]
    rw [List.getElem?_drop]
  rw [hdrop, slice_flatten_uniform _ _ _ huni (by rw [List.length_map]; omega)]
  have hgd : (segs.map (padSeg (maxList bspr) width)).getD q []
      = padSeg (maxList bspr) width (segs.getD q []) :=
    getD_map_of_lt _ _ _ [] [] (by omega)
  rw [hgd, getElem?_eq_some_getD _ j []
    (by rw [padSeg_length _ _ _ (by omega)]; omega)]
  show (padSeg (maxList bspr) width (segs.getD q [])).getD j []
      = zeroRow width
  exact padSeg_getD_pad _ _ _ _ (by omega) hj

/-- C4 witness: batch sizes `[3, 5, 2]` (`max_length = 5`), a worker's
local tensor of 10 rows of width 2; segment 0's row 3 (beyond its true
batch size 3) is the all-zero row, and the packed buffer has
`3 * 5 = 15` rows. -/
theorem vbOutputForward_packs_rectangular_zero_padded_witness :
    (([[[1, 1], [2, 2], [3, 3]],
       [[4, 4], [5, 5], [6, 6], [7, 7], [8, 8]],
       [[9, 9], [10, 10]]] : List (List Row)).map List.length
        = [3, 5, 2]) ∧
    0 < ([3, 5, 2] : List Nat).length ∧
    ([3, 5, 2] : List Nat).getD 0 0 ≤ 3 ∧
    3 < maxList [3, 5, 2] ∧
    ((VariableBatchRwPooledEmbeddingDist.forward 1 2
        ([[[1, 1], [2, 2], [3, 3]],
          [[4, 4], [5, 5], [6, 6], [7, 7], [8, 8]],
          [[9, 9], [10, 10]]] : List (List Row)).flatten
        [3, 5, 2]).maxLength = maxList [3, 5, 2] ∧
    (VariableBatchRwPooledEmbeddingDist.forward 1 2
        ([[[1, 1], [2, 2], [3, 3]],
          [[4, 4], [5, 5], [6, 6], [7, 7], [8, 8]],
          [[9, 9], [10, 10]]] : List (List Row)).flatten
        [3, 5, 2]).padMinf = false ∧
    (VariableBatchRwPooledEmbeddingDist.forward 1 2
        ([[[1, 1], [2, 2], [3, 3]],
          [[4, 4], [5, 5], [6, 6], [7, 7], [8, 8]],
          [[9, 9], [10, 10]]] : List (List Row)).flatten
        [3, 5, 2]).packedPooledEmbs.length
        = ([3, 5, 2] : List Nat).length * maxList [3, 5, 2] ∧
    (VariableBatchRwPooledEmbeddingDist.forward 1 2
        ([[[1, 1], [2, 2], [3, 3]],
          [[4, 4], [5, 5], [6, 6], [7, 7], [8, 8]],
          [[9, 9], [10, 10]]] : List (List Row)).flatten
        [3, 5, 2]).packedPooledEmbs.getD (0 * maxList [3, 5, 2] + 3) []
        = zeroRow 2) :=
  ⟨by decide, by decide, by decide, by decide,
    vbOutputForward_packs_rectangular_zero_padded 1 2 0 3 [3, 5, 2]
      [[[1, 1], [2, 2], [3, 3]],
       [[4, 4], [5, 5], [6, 6], [7, 7], [8, 8]],
       [[9, 9], [10, 10]]]
      (by decide) (by decide) (by decide) (by decide)⟩

/-- C5: awaiting the wrapped reduce-scatter result narrows the received
tensor along dimension 0 to exactly its first
`batch_size_per_rank[rank]` rows: the pipeline output is
`narrow(received, 0, 0, batch_size_per_rank[rank])` and always has
exactly `batch_size_per_rank[rank]` rows, regardless of the padded
`max_length`. -/
theorem vbOutputPipeline_narrows_to_true_batch_size
    (rank width : Nat) (bspr : List Nat)
    (contribs : List (List (List Row)))
    (hne : contribs ≠ [])
    (hshape : ∀ c ∈ contribs, c.map List.length = bspr)
    (hrank : rank < bspr.length) :
    vbOutputPipeline rank width bspr (contribs.map List.flatten)
      = narrowDim0 (reduceScatterSlice ((contribs.map List.flatten).map
          (fun e => (VariableBatchRwPooledEmbeddingDist.forward rank
            width e bspr).packedPooledEmbs)) rank (maxList bspr)) 0
          (bspr.getD rank 0) ∧
    (vbOutputPipeline rank width bspr
        (contribs.map List.flatten)).length = bspr.getD rank 0 := by
  refine ⟨rfl, ?_⟩
  have hbs : bspr.getD rank 0 ≤ maxList bspr :=
    le_maxList bspr _ (getD_self_mem bspr rank hrank)
  unfold vbOutputPipeline VariableBatchRwEmbeddingDistAwaitable.wait
    narrowDim0
  dsimp only
  rw [List.drop_zero, pipeline_received rank width bspr contribs hshape
    hrank, List.length_take]
  have hrlen : (sumBufs (contribs.map (fun c =>
      padSeg (maxList bspr) width (c.getD rank [])))).length
      = maxList bspr := by
    refine sumBufs_length _ _ (by simpa using hne) ?_
    intro b hb
    rcases List.mem_map.mp hb with ⟨c, hc, rfl⟩
    refine padSeg_length _ _ _ ?_
    rw [contrib_seg_length c bspr rank (hshape c hc) hrank]
    exact hbs
  rw [hrlen]
  omega

/-- C5 witness: the spec's end-to-end scenario — batch sizes `[2, 3]`,
worker 1's narrowed output has exactly 3 rows. -/
theorem vbOutputPipeline_narrows_to_true_batch_size_witness :
    (([[[[1, 2], [3, 4]], [[5, 6], [7, 8], [9, 10]]],
       [[[10, 20], [30, 40]], [[50, 60], [70, 80], [90, 100]]]] :
        List (List (List Row))) ≠ []) ∧
    (∀ c ∈ ([[[[1, 2], [3, 4]], [[5, 6], [7, 8], [9, 10]]],
       [[[10, 20], [30, 40]], [[50, 60], [70, 80], [90, 100]]]] :
        List (List (List Row))), c.map List.length = [2, 3]) ∧
    1 < ([2, 3] : List Nat).length ∧
    (vbOutputPipeline 1 2 [2, 3]
        (([[[[1, 2], [3, 4]], [[5, 6], [7, 8], [9, 10]]],
          [[[10, 20], [30, 40]], [[50, 60], [70, 80], [90, 100]]]] :
          List (List (List Row))).map List.flatten)
      = narrowDim0 (reduceScatterSlice
          ((([[[[1, 2], [3, 4]], [[5, 6], [7, 8], [9, 10]]],
            [[[10, 20], [30, 40]], [[50, 60], [70, 80], [90, 100]]]] :
            List (List (List Row))).map List.flatten).map
          (fun e => (VariableBatchRwPooledEmbeddingDist.forward 1
            2 e [2, 3]).packedPooledEmbs)) 1 (maxList [2, 3])) 0
          (([2, 3] : List Nat).getD 1 0) ∧
    (vbOutputPipeline 1 2 [2, 3]
        (([[[[1, 2], [3, 4]], [[5, 6], [7, 8], [9, 10]]],
          [[[10, 20], [30, 40]], [[50, 60], [70, 80], [90, 100]]]] :
          List (List (List Row))).map List.flatten)).length
      = ([2, 3] : List Nat).getD 1 0) :=
  ⟨by decide, by decide, by decide,
    vbOutputPipeline_narrows_to_true_batch_size 1 2 [2, 3]
      [[[[1, 2], [3, 4]], [[5, 6], [7, 8], [9, 10]]],
       [[[10, 20], [30, 40]], [[50, 60], [70, 80], [90, 100]]]]
      (by decide) (by decide) (by decide)⟩

end VbRwSharding
